import Mathlib

/-!
Verification of the file-concatenator core (src/app.py, class FileProcessor).

The filesystem is modelled shallowly: a file carries its raw bytes (used by the
binary probe), the string that Python's text-mode reads produce for it
(open(..., encoding='utf-8', errors='ignore'), a library codec treated here as
an oracle field), its stat size, and an accessibility flag summarising
`_can_access_file`.  A directory tree is a rose tree of named subtrees.
All configuration scalars (worker count, maximum file size) are explicit
parameters of the functions that read them from `self` in the source.
-/

namespace FileConcat

/-- One file of the modelled filesystem.  `bytes` is the raw content read in
binary mode; `text` is the full content as decoded by Python's
`encoding='utf-8', errors='ignore'` text mode (the codec is a Python library,
so its output is carried as a field rather than recomputed); `size` is
`stat().st_size`; `accessible` is the outcome of `_can_access_file`. -/
structure FSFile where
  name : String
  bytes : List Nat
  text : String
  size : Nat
  accessible : Bool
deriving DecidableEq

mutual
/-- A directory tree: the files directly inside it and its named subtrees.
This is the structure `os.walk` traverses top-down. -/
inductive FSTree : Type where
  | node : List FSFile → FSDirs → FSTree
/-- The ordered list of named subtrees of a directory. -/
inductive FSDirs : Type where
  | nil : FSDirs
  | cons : String → FSTree → FSDirs → FSDirs
end

/-- The root argument of `collect_files_with_info`: it may not exist, exist but
be unlistable (`_can_access_directory` fails), or be an accessible tree. -/
inductive Root : Type where
  | missing : Root
  | inaccessible : Root
  | ok : FSTree → Root

/-- `self.stats` of `FileProcessor`. -/
structure ScanStats where
  total_files : Nat
  concatenated_files : Nat
  skipped_files : Nat
  errors : List String
  binary_files : Nat
  hidden_files : Nat
  processed_size : Nat
deriving DecidableEq

/-- The reset value of `self.stats` (app.py lines 831-839). -/
def initial_stats : ScanStats :=
  { total_files := 0, concatenated_files := 0, skipped_files := 0,
    errors := [], binary_files := 0, hidden_files := 0, processed_size := 0 }

/-- `self.excluded_dirs` (app.py line 65). -/
def excluded_dirs : List String :=
  [".venv", "__pycache__", ".git", "node_modules", "venv", "env"]

/-- `self.included_extensions` (app.py lines 66-70). -/
def included_extensions : List String :=
  [".py", ".txt", ".md", ".html", ".css", ".js", ".java", ".json",
   ".xml", ".yaml", ".yml", ".cfg", ".conf", ".log", ".env",
   ".example", ".gitignore", ".dockerfile", ".sql", ".sh", ".bat"]

/-- `special_files` of `is_text_file` (app.py lines 120-123). -/
def special_files : List String :=
  ["readme", "license", "dockerfile", "makefile",
   ".env.example", ".gitignore", ".env"]

/-- The hidden names allowed by the scanner (app.py line 313). -/
def allowed_hidden : List String := [".env", ".env.example", ".gitignore"]

/-- The VCS hidden directory names (app.py lines 253 and 388). -/
def vcs_hidden : List String := [".git", ".svn", ".hg"]

/-- Python `str.lower`, modelled on the character list (case folding as
`Char.toLower`). -/
def strLower (s : String) : String := String.mk (s.data.map Char.toLower)

/-- Python `str.startswith`, modelled as a character-list test. -/
def strStartsWith (s p : String) : Bool := p.data.isPrefixOf s.data

/-- Python `str.strip`: whitespace removed from both ends. -/
def strTrim (s : String) : String :=
  String.mk
    (((s.data.dropWhile Char.isWhitespace).reverse.dropWhile
        Char.isWhitespace).reverse)

/-- The first `n` characters of a string, as Python's text-mode `read(n)`
returns them. -/
def strTake (s : String) (n : Nat) : String := String.mk (s.data.take n)

/-- `is_hidden` (app.py line 96): the name starts with a dot. -/
def is_hidden (name : String) : Bool := strStartsWith name "."

/-- Python `pathlib` suffix of a file name: `name[i:]` for the last dot index
`i` when `0 < i < len(name) - 1`, else the empty string. -/
def pySuffix (name : String) : String :=
  let cs := name.data
  let dots := (List.range cs.length).filter (fun i => cs.getD i ' ' == '.')
  match dots.getLast? with
  | some i => if 0 < i ∧ i < cs.length - 1 then String.mk (cs.drop i) else ""
  | none => ""

/-- The special-name test of `is_text_file` (app.py line 130): the lowercased
name is one of `special_files` or starts with one of them. -/
def isSpecialName (nameLower : String) : Bool :=
  special_files.contains nameLower
    || special_files.any (fun sf => strStartsWith nameLower sf)

/-- `_check_file_content` (app.py lines 178-232).  With an accessible file the
reads succeed on the first attempt, so the loop body runs once: a null byte in
the first 1024 raw bytes forces `False`; otherwise the first 1024 characters
of the ignore-errors decode are stripped and the file is text iff something
remains.  (The `UnicodeDecodeError` branch is dead: `errors='ignore'` never
raises it.) -/
def check_file_content (f : FSFile) : Bool :=
  if (f.bytes.take 1024).contains 0 then false
  else decide (0 < (strTrim (strTake f.text 1024)).length)

/-- `is_text_file` (app.py lines 98-138): inaccessible files are rejected,
then the extension whitelist, then the special-name whitelist, then the
content probe, each short-circuiting. -/
def is_text_file (f : FSFile) : Bool :=
  if !f.accessible then false
  else if included_extensions.contains (strLower (pySuffix f.name)) then true
  else if isSpecialName (strLower f.name) then true
  else check_file_content f

/-- `_should_exclude_directory_name` (app.py lines 371-391). -/
def should_exclude_directory_name (d : String) : Bool :=
  (excluded_dirs.map strLower).contains (strLower d)
    || (strStartsWith d "." && vcs_hidden.contains (strLower d))

/-- The descriptor built by `_get_file_info`: relative path, metadata, and the
`selected` flag defaulting to true.  `parts` is the chain of ancestor directory
names below the root, from which `relative_path` is assembled; `file` is the
model's handle to the filesystem object the `path` field points back to. -/
structure FileInfo where
  parts : List String
  file : FSFile
  relative_path : String
  size : Nat
  selected : Bool
deriving DecidableEq

/-- `_get_file_info` (app.py lines 393-433): builds the descriptor; `parts`
records the subdirectory names from the scan root under which the file sits,
and `relative_path` is those parts joined by the canonical separator. -/
def mkFileInfo (pre : List String) (f : FSFile) : FileInfo :=
  { parts := pre, file := f,
    relative_path := String.intercalate "/" (pre ++ [f.name]),
    size := f.size, selected := true }

/-- The per-file body of the scan loop (app.py lines 299-332): count the file,
then skip it if inaccessible, hidden-and-not-allowed, or non-text (in that
order), otherwise emit a descriptor. -/
def scanFile (pre : List String) (st : ScanStats) (f : FSFile) :
    ScanStats × Option FileInfo :=
  let st1 := { st with total_files := st.total_files + 1 }
  if !f.accessible then
    ({ st1 with skipped_files := st1.skipped_files + 1 }, none)
  else if is_hidden f.name && !allowed_hidden.contains (strLower f.name) then
    ({ st1 with hidden_files := st1.hidden_files + 1,
                skipped_files := st1.skipped_files + 1 }, none)
  else if !is_text_file f then
    ({ st1 with binary_files := st1.binary_files + 1,
                skipped_files := st1.skipped_files + 1 }, none)
  else
    (st1, some (mkFileInfo pre f))

/-- The scan loop over the files of one directory, in listing order. -/
def scanFiles (pre : List String) (st : ScanStats) :
    List FSFile → ScanStats × List FileInfo
  | [] => (st, [])
  | f :: fs =>
    let r := scanFile pre st f
    match r.2 with
    | some fi =>
      let p := scanFiles pre r.1 fs
      (p.1, fi :: p.2)
    | none => scanFiles pre r.1 fs

mutual
/-- The `os.walk` traversal (app.py lines 295-338): process the files of the
current directory, then recurse into the subdirectories that survive the
`dirs[:]` filter, accumulating statistics and descriptors. -/
def scanTree (pre : List String) (st : ScanStats) :
    FSTree → ScanStats × List FileInfo
  | .node files dirs =>
    let p1 := scanFiles pre st files
    let p2 := scanDirs pre p1.1 dirs
    (p2.1, p1.2 ++ p2.2)
/-- Traversal of a directory's subtrees; a name matched by
`_should_exclude_directory_name` is pruned and its subtree never visited. -/
def scanDirs (pre : List String) (st : ScanStats) :
    FSDirs → ScanStats × List FileInfo
  | .nil => (st, [])
  | .cons name sub rest =>
    if should_exclude_directory_name name then
      scanDirs pre st rest
    else
      let p1 := scanTree (pre ++ [name]) st sub
      let p2 := scanDirs pre p1.1 rest
      (p2.1, p1.2 ++ p2.2)
end

/-- `collect_files_with_info` (app.py lines 258-350): a missing or unlistable
root appends one diagnostic to `errors` and yields no descriptors; otherwise
the tree is walked. -/
def collect_files_with_info (rootPath : String) (r : Root) (st : ScanStats) :
    ScanStats × List FileInfo :=
  match r with
  | .missing =>
    ({ st with errors := st.errors ++ ["Directory does not exist: " ++ rootPath] }, [])
  | .inaccessible =>
    ({ st with errors := st.errors ++ ["Cannot access directory: " ++ rootPath] }, [])
  | .ok t => scanTree [] st t

/-- `read_file_chunk` (app.py lines 549-595): on the first loop attempt the
size guard fires for an oversized file (no content, no stats change, one
attempt); otherwise the chunked read succeeds on the first attempt, the joined
chunks reconstruct the full decoded text, and `processed_size` grows by the
stat size.  The result carries (content, stats, attempts used). -/
def read_file_chunk (maxFS : Nat) (f : FSFile) (st : ScanStats) :
    Option String × ScanStats × Nat :=
  if maxFS < f.size then (none, st, 1)
  else (some f.text,
        { st with processed_size := st.processed_size + f.size }, 1)

/-- The result-collection loop of `process_file_batch` (app.py lines 617-640):
one `(relative_path, formatted_content)` pair per successful read, a
`skipped_files` increment per failed one. -/
def processBatchAux (maxFS : Nat) (st : ScanStats) :
    List FileInfo → List (String × String) × ScanStats
  | [] => ([], st)
  | fi :: rest =>
    let r := read_file_chunk maxFS fi.file st
    match r.1 with
    | some c =>
      let st2 := { r.2.1 with
                   concatenated_files := r.2.1.concatenated_files + 1 }
      let p := processBatchAux maxFS st2 rest
      ((fi.relative_path,
        "\n### " ++ fi.relative_path ++ " ###\n" ++ c ++ "\n\n") :: p.1, p.2)
    | none =>
      let st2 := { r.2.1 with skipped_files := r.2.1.skipped_files + 1 }
      processBatchAux maxFS st2 rest

/-- The ordering used by `results.sort(key=lambda x: x[0])` (app.py line 643):
compare pairs by their relative-path component. -/
def relLE (a b : String × String) : Prop := a.1 ≤ b.1

instance : DecidableRel relLE :=
  fun a b => inferInstanceAs (Decidable (a.1 ≤ b.1))

instance : IsTotal (String × String) relLE := ⟨fun a b => le_total a.1 b.1⟩

instance : IsTrans (String × String) relLE :=
  ⟨fun _ _ _ h1 h2 => le_trans h1 h2⟩

/-- `process_file_batch` (app.py lines 597-644): collect the batch's pairs and
sort them by relative path.  The source then drops the keys; the model keeps
them and the caller projects to the contents. -/
def process_file_batch (maxFS : Nat) (st : ScanStats) (b : List FileInfo) :
    List (String × String) × ScanStats :=
  let p := processBatchAux maxFS st b
  (List.insertionSort relLE p.1, p.2)

/-- Contiguous slices of length `m + 1`, the last one possibly shorter: the
loop `for i in range(0, len, bs)` with slice `l[i:i+bs]` for `bs = m + 1`. -/
def chunksSucc {α : Type} (m : Nat) (l : List α) : List (List α) :=
  match l with
  | [] => []
  | a :: rest => (a :: rest).take (m + 1) :: chunksSucc m (rest.drop m)
termination_by l.length
decreasing_by
  simp only [List.length_drop, List.length_cons]
  omega

/-- `batch_size = max(1, len(file_paths) // self.num_workers)`
(app.py line 679). -/
def batchSizeOf (count w : Nat) : Nat := max 1 (count / w)

/-- The batch loop of `concatenate_files_parallel` (app.py lines 682-690):
process the batches in order, appending each batch's output. -/
def concatBatchesAux (maxFS : Nat) (st : ScanStats) :
    List (List FileInfo) → List (String × String) × ScanStats
  | [] => ([], st)
  | b :: rest =>
    let p1 := process_file_batch maxFS st b
    let p2 := concatBatchesAux maxFS p1.2 rest
    (p1.1 ++ p2.1, p2.2)

/-- The document header (app.py lines 663-673); `ts` is the formatted
generation timestamp. -/
def docHeader (ts rootDir : String) (count w : Nat) : String :=
  "# Python Codebase Concatenation for LLM Processing\n# Generated: " ++ ts
    ++ "\n# Source Directory: " ++ rootDir
    ++ "\n# Total Files Selected: " ++ toString count
    ++ "\n# Worker Threads: " ++ toString w
    ++ "\n# Purpose: Prepared for Large Language Model analysis\n"
    ++ "# Copyright (c) 2025 UT Health Science Center San Antonio"
    ++ " STEM STAIRWAY Coding Team\n"
    ++ "# " ++ String.mk (List.replicate 48 (Char.ofNat 61)) ++ "\n\n"

/-- `concatenate_files_parallel` (app.py lines 646-693): header, then the
batches of size `max(1, count // w)` processed in order, each contributing its
sorted formatted sections. -/
def concatenate_files_parallel (maxFS w : Nat) (ts rootDir : String)
    (st : ScanStats) (sel : List FileInfo) : String × ScanStats :=
  let p := concatBatchesAux maxFS st
             (chunksSucc (batchSizeOf sel.length w - 1) sel)
  (String.join (docHeader ts rootDir sel.length w :: p.1.map Prod.snd), p.2)

/-- The `(relativePath, section)` pairs the whole concatenation run produces,
in document order. -/
def concat_pairs (maxFS w : Nat) (st : ScanStats) (sel : List FileInfo) :
    List (String × String) :=
  (concatBatchesAux maxFS st
     (chunksSucc (batchSizeOf sel.length w - 1) sel)).1

/-- A read succeeds exactly when the stat size is within the limit. -/
def sizeOk (maxFS : Nat) (fi : FileInfo) : Bool := decide (fi.file.size ≤ maxFS)

/-- The pair a successful read of `fi` contributes. -/
def pairOf (fi : FileInfo) : String × String :=
  (fi.relative_path,
   "\n### " ++ fi.relative_path ++ " ###\n" ++ fi.file.text ++ "\n\n")

/-- A complete run: scan from freshly reset statistics, then concatenate every
descriptor the scan returned, with the statistics object carried through. -/
def runScanThenConcat (maxFS w : Nat) (ts rootPath : String) (r : Root) :
    String × ScanStats :=
  let p := collect_files_with_info rootPath r initial_stats
  concatenate_files_parallel maxFS w ts rootPath p.1 p.2

/-- The example tree of claim C2: `a.py` (10 bytes of text), `b.png` (null
bytes in its content), `.git/config` and `node_modules/x.js`. -/
def c2Tree : FSTree :=
  .node
    [ { name := "a.py", bytes := [112, 114, 105, 110, 116, 40, 41, 10, 10, 10],
        text := "print()\n\n\n", size := 10, accessible := true },
      { name := "b.png", bytes := [137, 80, 78, 71, 0, 0, 1], text := "PNG",
        size := 7, accessible := true } ]
    (.cons ".git"
      (.node [ { name := "config", bytes := [91, 99, 93], text := "c",
                 size := 3, accessible := true } ] .nil)
      (.cons "node_modules"
        (.node [ { name := "x.js", bytes := [59], text := ";", size := 1,
                   accessible := true } ] .nil)
        .nil))

/-- A concrete oversized descriptor for the claim C7 witness. -/
def c7big : FileInfo :=
  { parts := [],
    file := { name := "big.txt", bytes := [66], text := "B", size := 6,
              accessible := true },
    relative_path := "big.txt", size := 6, selected := true }

/-- A concrete within-limit descriptor for the claim C7 witness. -/
def c7small : FileInfo :=
  { parts := [],
    file := { name := "a.txt", bytes := [97], text := "a", size := 1,
              accessible := true },
    relative_path := "a.txt", size := 1, selected := true }

/-- A concrete descriptor for the claim C9 witness. -/
def c9fi : FileInfo :=
  { parts := [],
    file := { name := "a.txt", bytes := [97], text := "a", size := 1,
              accessible := true },
    relative_path := "a.txt", size := 1, selected := true }

/-! ### Counting lemmas for the scanner -/

theorem scanFile_stats (pre : List String) (st : ScanStats) (f : FSFile) :
    (scanFile pre st f).1.total_files + st.skipped_files
      = st.total_files + (scanFile pre st f).1.skipped_files
          + (scanFile pre st f).2.toList.length
    ∧ (scanFile pre st f).1.concatenated_files = st.concatenated_files := by
  simp only [scanFile]
  split
  · simp; omega
  · split
    · simp; omega
    · split
      · simp; omega
      · simp; omega

theorem scanFiles_stats (pre : List String) (fs : List FSFile) :
    ∀ st : ScanStats,
      (scanFiles pre st fs).1.total_files + st.skipped_files
        = st.total_files + (scanFiles pre st fs).1.skipped_files
            + (scanFiles pre st fs).2.length
      ∧ (scanFiles pre st fs).1.concatenated_files = st.concatenated_files := by
  induction fs with
  | nil => intro st; simp [scanFiles]
  | cons f fs ih =>
    intro st
    have hf := scanFile_stats pre st f
    have ihr := ih (scanFile pre st f).1
    simp only [scanFiles]
    rcases hm : (scanFile pre st f).2 with _ | fi
    · simp only [hm] at hf ⊢
      simp only [Option.toList, List.length_nil] at hf
      omega
    · simp only [hm] at hf ⊢
      simp only [Option.toList, List.length_cons, List.length_nil] at hf
      simp only [List.length_cons]
      omega

mutual
theorem scanTree_stats (pre : List String) (st : ScanStats) (t : FSTree) :
    (scanTree pre st t).1.total_files + st.skipped_files
      = st.total_files + (scanTree pre st t).1.skipped_files
          + (scanTree pre st t).2.length
    ∧ (scanTree pre st t).1.concatenated_files = st.concatenated_files := by
  cases t with
  | node files dirs =>
    have h1 := scanFiles_stats pre files st
    have h2 := scanDirs_stats pre (scanFiles pre st files).1 dirs
    simp only [scanTree, List.length_append]
    omega

theorem scanDirs_stats (pre : List String) (st : ScanStats) (ds : FSDirs) :
    (scanDirs pre st ds).1.total_files + st.skipped_files
      = st.total_files + (scanDirs pre st ds).1.skipped_files
          + (scanDirs pre st ds).2.length
    ∧ (scanDirs pre st ds).1.concatenated_files = st.concatenated_files := by
  cases ds with
  | nil => simp [scanDirs]
  | cons name sub rest =>
    simp only [scanDirs]
    split
    · exact scanDirs_stats pre st rest
    · have h1 := scanTree_stats (pre ++ [name]) st sub
      have h2 := scanDirs_stats pre (scanTree (pre ++ [name]) st sub).1 rest
      simp only [List.length_append]
      omega
end

/-! ### Lemmas about batch processing -/

theorem processBatchAux_pairs (maxFS : Nat) (b : List FileInfo) :
    ∀ st : ScanStats,
      (processBatchAux maxFS st b).1 = (b.filter (sizeOk maxFS)).map pairOf := by
  induction b with
  | nil => intro st; simp [processBatchAux]
  | cons fi rest ih =>
    intro st
    by_cases h : maxFS < fi.file.size
    · have hs : sizeOk maxFS fi = false := by
        simp [sizeOk]; omega
      simp [processBatchAux, read_file_chunk, h, hs, ih]
    · have hs : sizeOk maxFS fi = true := by
        simp [sizeOk]; omega
      simp [processBatchAux, read_file_chunk, h, hs, ih, pairOf]

theorem processBatchAux_stats (maxFS : Nat) (b : List FileInfo) :
    ∀ st : ScanStats,
      (processBatchAux maxFS st b).2.total_files = st.total_files
      ∧ (processBatchAux maxFS st b).2.concatenated_files
          = st.concatenated_files + (b.filter (sizeOk maxFS)).length
      ∧ (processBatchAux maxFS st b).2.skipped_files
          = st.skipped_files
              + (b.filter (fun fi => !sizeOk maxFS fi)).length := by
  induction b with
  | nil => intro st; simp [processBatchAux]
  | cons fi rest ih =>
    intro st
    by_cases h : maxFS < fi.file.size
    · have hs : sizeOk maxFS fi = false := by
        simp [sizeOk]; omega
      have ihr := ih { st with skipped_files := st.skipped_files + 1 }
      simp only [processBatchAux, read_file_chunk, if_pos h,
        List.filter_cons, hs, Bool.not_false, if_pos, List.length_cons] at ihr ⊢
      refine ⟨?_, ?_, ?_⟩ <;> (try simp at ihr ⊢) <;> omega
    · have hs : sizeOk maxFS fi = true := by
        simp [sizeOk]; omega
      have ihr := ih { st with
        processed_size := st.processed_size + fi.file.size,
        concatenated_files := st.concatenated_files + 1 }
      simp only [processBatchAux, read_file_chunk, if_neg h,
        List.filter_cons, hs, Bool.not_true, List.length_cons] at ihr ⊢
      refine ⟨?_, ?_, ?_⟩ <;> (try simp at ihr ⊢) <;> omega

theorem concatBatchesAux_pairs (maxFS : Nat) (bs : List (List FileInfo)) :
    ∀ st : ScanStats,
      (concatBatchesAux maxFS st bs).1
        = (bs.map (fun b =>
            List.insertionSort relLE
              ((b.filter (sizeOk maxFS)).map pairOf))).flatten := by
  induction bs with
  | nil => intro st; simp [concatBatchesAux]
  | cons b rest ih =>
    intro st
    simp [concatBatchesAux, process_file_batch, processBatchAux_pairs, ih]

theorem concatBatchesAux_stats (maxFS : Nat) (bs : List (List FileInfo)) :
    ∀ st : ScanStats,
      (concatBatchesAux maxFS st bs).2.total_files = st.total_files
      ∧ (concatBatchesAux maxFS st bs).2.concatenated_files
          = st.concatenated_files + (bs.flatten.filter (sizeOk maxFS)).length
      ∧ (concatBatchesAux maxFS st bs).2.skipped_files
          = st.skipped_files
              + (bs.flatten.filter (fun fi => !sizeOk maxFS fi)).length := by
  induction bs with
  | nil => intro st; simp [concatBatchesAux]
  | cons b rest ih =>
    intro st
    have hb := processBatchAux_stats maxFS b st
    have ihr := ih (processBatchAux maxFS st b).2
    simp only [concatBatchesAux, process_file_batch,
      List.flatten_cons, List.filter_append, List.length_append]
    refine ⟨?_, ?_, ?_⟩ <;> omega

/-! ### Lemmas about the batch slicing -/

theorem chunksSucc_nil {α : Type} (m : Nat) :
    chunksSucc m ([] : List α) = [] := by
  simp [chunksSucc]

theorem chunksSucc_cons {α : Type} (m : Nat) (a : α) (rest : List α) :
    chunksSucc m (a :: rest)
      = (a :: rest).take (m + 1) :: chunksSucc m (rest.drop m) := by
  simp [chunksSucc]

theorem chunksSucc_flatten_aux {α : Type} (m : Nat) (n : Nat) :
    ∀ l : List α, l.length ≤ n → (chunksSucc m l).flatten = l := by
  induction n with
  | zero =>
    intro l h
    have hl : l = [] := List.length_eq_zero.mp (Nat.le_zero.mp h)
    subst hl
    simp [chunksSucc_nil]
  | succ n ih =>
    intro l h
    match l with
    | [] => simp [chunksSucc_nil]
    | a :: rest =>
      rw [chunksSucc_cons, List.flatten_cons]
      have hlen : (rest.drop m).length ≤ n := by
        simp only [List.length_cons] at h
        simp only [List.length_drop]
        omega
      rw [ih (rest.drop m) hlen]
      have hd : rest.drop m = (a :: rest).drop (m + 1) := by
        simp [List.drop_succ_cons]
      rw [hd, List.take_append_drop]

theorem chunksSucc_flatten {α : Type} (m : Nat) (l : List α) :
    (chunksSucc m l).flatten = l :=
  chunksSucc_flatten_aux m l.length l le_rfl

theorem chunksSucc_ne_nil {α : Type} (m : Nat) (l : List α) (h : l ≠ []) :
    chunksSucc m l ≠ [] := by
  match l with
  | [] => exact absurd rfl h
  | a :: rest => rw [chunksSucc_cons]; simp

theorem chunksSucc_mem_aux {α : Type} (m n : Nat) :
    ∀ l : List α, l.length ≤ n →
      ∀ c ∈ chunksSucc m l, c ≠ [] ∧ c.length ≤ m + 1 := by
  induction n with
  | zero =>
    intro l h c hc
    have hl : l = [] := List.length_eq_zero.mp (Nat.le_zero.mp h)
    subst hl
    simp [chunksSucc_nil] at hc
  | succ n ih =>
    intro l h c hc
    match l with
    | [] => simp [chunksSucc_nil] at hc
    | a :: rest =>
      rw [chunksSucc_cons] at hc
      rcases List.mem_cons.mp hc with h1 | h2
      · subst h1
        refine ⟨by simp, ?_⟩
        simp only [List.length_take]
        omega
      · refine ih (rest.drop m) ?_ c h2
        simp only [List.length_cons] at h
        simp only [List.length_drop]
        omega

theorem chunksSucc_dropLast_aux {α : Type} (m n : Nat) :
    ∀ l : List α, l.length ≤ n →
      ∀ c ∈ (chunksSucc m l).dropLast, c.length = m + 1 := by
  induction n with
  | zero =>
    intro l h c hc
    have hl : l = [] := List.length_eq_zero.mp (Nat.le_zero.mp h)
    subst hl
    simp [chunksSucc_nil] at hc
  | succ n ih =>
    intro l h c hc
    match l with
    | [] => simp [chunksSucc_nil] at hc
    | a :: rest =>
      rw [chunksSucc_cons] at hc
      by_cases hr : rest.drop m = []
      · rw [hr, chunksSucc_nil] at hc
        simp at hc
      · rw [List.dropLast_cons_of_ne_nil (chunksSucc_ne_nil m _ hr)] at hc
        rcases List.mem_cons.mp hc with h1 | h2
        · subst h1
          have hm : m < rest.length := by
            by_contra hh
            push_neg at hh
            exact hr (List.drop_eq_nil_of_le hh)
          simp only [List.length_take, List.length_cons]
          omega
        · refine ih (rest.drop m) ?_ c h2
          simp only [List.length_cons] at h
          simp only [List.length_drop]
          omega

/-! ### Permutation lemmas for the produced sections -/

theorem flatten_sort_perm (L : List (List (String × String))) :
    ((L.map (List.insertionSort relLE)).flatten).Perm L.flatten := by
  induction L with
  | nil => simp
  | cons x rest ih =>
    simp only [List.map_cons, List.flatten_cons]
    exact (List.perm_insertionSort relLE x).append ih

theorem filtered_pairs_flatten (maxFS : Nat) (bs : List (List FileInfo)) :
    (bs.map (fun b => (b.filter (sizeOk maxFS)).map pairOf)).flatten
      = (bs.flatten.filter (sizeOk maxFS)).map pairOf := by
  induction bs with
  | nil => simp
  | cons b rest ih => simp [List.filter_append, ih]

theorem concat_pairs_perm (maxFS w : Nat) (st : ScanStats)
    (sel : List FileInfo) :
    (concat_pairs maxFS w st sel).Perm
      ((sel.filter (sizeOk maxFS)).map pairOf) := by
  unfold concat_pairs
  rw [concatBatchesAux_pairs]
  have h1 : (chunksSucc (batchSizeOf sel.length w - 1) sel).map
        (fun b => List.insertionSort relLE
          ((b.filter (sizeOk maxFS)).map pairOf))
      = ((chunksSucc (batchSizeOf sel.length w - 1) sel).map
          (fun b => (b.filter (sizeOk maxFS)).map pairOf)).map
            (List.insertionSort relLE) := by
    rw [List.map_map]
    rfl
  rw [h1]
  refine (flatten_sort_perm _).trans ?_
  rw [filtered_pairs_flatten, chunksSucc_flatten]

/-! ### String join lemmas -/

theorem string_join_foldl (l : List String) :
    ∀ a : String, l.foldl (fun r s => r ++ s) a = a ++ String.join l := by
  induction l with
  | nil => intro a; simp [String.join]
  | cons s rest ih =>
    intro a
    simp only [String.join, List.foldl_cons]
    rw [ih (a ++ s), ih ("" ++ s)]
    simp [String.append_assoc]

theorem string_join_cons (s : String) (l : List String) :
    String.join (s :: l) = s ++ String.join l := by
  have h := string_join_foldl l ("" ++ s)
  simp only [String.empty_append] at h
  simp only [String.join, List.foldl_cons]
  exact h

theorem string_join_append (l1 l2 : List String) :
    String.join (l1 ++ l2) = String.join l1 ++ String.join l2 := by
  induction l1 with
  | nil =>
    simp only [List.nil_append]
    rw [show String.join ([] : List String) = "" from rfl]
    simp
  | cons s rest ih =>
    simp only [List.cons_append, string_join_cons, ih, String.append_assoc]

theorem string_join_flatten (L : List (List String)) :
    String.join (L.map String.join) = String.join L.flatten := by
  induction L with
  | nil => rfl
  | cons x rest ih =>
    simp [string_join_cons, string_join_append, ih]

/-! ### Provenance of the scanned descriptors -/

theorem scanFile_some (pre : List String) (st : ScanStats) (f : FSFile)
    (fi : FileInfo) (h : (scanFile pre st f).2 = some fi) :
    fi = mkFileInfo pre f := by
  simp only [scanFile] at h
  split at h
  · simp at h
  · split at h
    · simp at h
    · split at h
      · simp at h
      · simpa using h.symm

theorem scanFiles_parts (pre : List String) (fs : List FSFile) :
    ∀ st : ScanStats, ∀ fi ∈ (scanFiles pre st fs).2, fi.parts = pre := by
  induction fs with
  | nil => intro st fi h; simp [scanFiles] at h
  | cons f fs ih =>
    intro st fi h
    simp only [scanFiles] at h
    rcases hm : (scanFile pre st f).2 with _ | fj
    · rw [hm] at h
      exact ih _ fi h
    · rw [hm] at h
      rcases List.mem_cons.mp h with h1 | h2
      · rw [h1, scanFile_some pre st f fj hm]
        rfl
      · exact ih _ fi h2

mutual
theorem scanTree_parts (pre : List String) (st : ScanStats) (t : FSTree)
    (hpre : ∀ p ∈ pre, should_exclude_directory_name p = false) :
    ∀ fi ∈ (scanTree pre st t).2, ∀ p ∈ fi.parts,
      should_exclude_directory_name p = false := by
  cases t with
  | node files dirs =>
    intro fi hfi p hp
    simp only [scanTree, List.mem_append] at hfi
    rcases hfi with h1 | h2
    · have := scanFiles_parts pre files st fi h1
      rw [this] at hp
      exact hpre p hp
    · exact scanDirs_parts pre (scanFiles pre st files).1 dirs hpre fi h2 p hp

theorem scanDirs_parts (pre : List String) (st : ScanStats) (ds : FSDirs)
    (hpre : ∀ p ∈ pre, should_exclude_directory_name p = false) :
    ∀ fi ∈ (scanDirs pre st ds).2, ∀ p ∈ fi.parts,
      should_exclude_directory_name p = false := by
  cases ds with
  | nil => intro fi hfi; simp [scanDirs] at hfi
  | cons name sub rest =>
    intro fi hfi p hp
    simp only [scanDirs] at hfi
    split at hfi
    · exact scanDirs_parts pre st rest hpre fi hfi p hp
    · rename_i hex
      simp only [List.mem_append] at hfi
      have hname : should_exclude_directory_name name = false :=
        Bool.not_eq_true _ ▸ eq_false_of_ne_true hex
      rcases hfi with h1 | h2
      · refine scanTree_parts (pre ++ [name]) st sub ?_ fi h1 p hp
        intro q hq
        rcases List.mem_append.mp hq with hq1 | hq2
        · exact hpre q hq1
        · rw [List.mem_singleton.mp hq2]
          exact hname
      · exact scanDirs_parts pre (scanTree (pre ++ [name]) st sub).1 rest
          hpre fi h2 p hp
end

theorem filter_not_length {α : Type} (p : α → Bool) (l : List α) :
    (l.filter p).length + (l.filter (fun a => !p a)).length = l.length := by
  induction l with
  | nil => rfl
  | cons a t ih =>
    by_cases h : p a <;> simp only [List.filter_cons, h] <;> simp [h] <;> omega

/-! ### The claims -/

/-- Claim C1, counterexample: the claim says a file with a null byte in its
first 1024 bytes is classified Binary irrespective of its extension, in
particular even when the extension is in includedExtensions.  The accessible
file x.py whose single content byte is a null byte is nevertheless classified
Text, because the extension whitelist short-circuits before the content
probe (app.py lines 126-127). -/
theorem claimC1_counterexample :
    is_text_file { name := "x.py", bytes := [0], text := "A", size := 1,
                   accessible := true } = true := by
  decide

/-- Claim C1 (amended): for every file whose lowercased extension is not in
includedExtensions and whose lowercased name matches no special filename, a
null byte within the first 1024 bytes makes classification yield Binary (the
file is excluded), never Text, and this holds whatever the extension is. -/
theorem claimC1_amended (f : FSFile)
    (hext : included_extensions.contains (strLower (pySuffix f.name)) = false)
    (hsp : isSpecialName (strLower f.name) = false)
    (hnull : (f.bytes.take 1024).contains 0 = true) :
    is_text_file f = false := by
  simp only [is_text_file, check_file_content, hext, hsp, hnull]
  split <;> simp

/-- Witness for claim C1: a concrete non-whitelisted file with a null byte is
rejected by the classifier. -/
theorem claimC1_witness :
    is_text_file { name := "x.bin", bytes := [65, 0, 66], text := "AB",
                   size := 3, accessible := true } = false :=
  claimC1_amended
    { name := "x.bin", bytes := [65, 0, 66], text := "AB", size := 3,
      accessible := true } (by decide) (by decide) (by decide)

/-- Claim C2, counterexample: the claim requires totalFiles = 4 and
skippedFiles = 3 on the example scenario, but the scan prunes `.git` and
`node_modules` before their files are enumerated, so they are never counted:
totalFiles is 2 and skippedFiles is 1. -/
theorem claimC2_counterexample :
    ¬ ((collect_files_with_info "/r" (Root.ok c2Tree) initial_stats).1.total_files = 4
       ∧ (collect_files_with_info "/r" (Root.ok c2Tree) initial_stats).1.skipped_files = 3) := by
  decide

/-- Claim C2 (amended): on the example scenario the scan returns exactly one
descriptor (`a.py`) and finishes with totalFiles = 2, skippedFiles = 1 and
binaryFiles = 1 — files inside pruned directories are never enumerated, so
they contribute to no counter. -/
theorem claimC2_amended :
    (collect_files_with_info "/r" (Root.ok c2Tree) initial_stats).2.map
        FileInfo.relative_path = ["a.py"]
    ∧ (collect_files_with_info "/r" (Root.ok c2Tree) initial_stats).1.total_files = 2
    ∧ (collect_files_with_info "/r" (Root.ok c2Tree) initial_stats).1.skipped_files = 1
    ∧ (collect_files_with_info "/r" (Root.ok c2Tree) initial_stats).1.binary_files = 1 := by
  decide

/-- Claim C5: every accessible file whose base name is README (no extension)
is classified Text, and the classification does not depend on the file's
content: replacing the content (bytes and decoded text) leaves it Text. -/
theorem claimC5_readme (f : FSFile) (hacc : f.accessible = true)
    (hname : f.name = "README") :
    is_text_file f = true
    ∧ ∀ (bs : List Nat) (tx : String),
        is_text_file { f with bytes := bs, text := tx } = true := by
  obtain ⟨n, b, t, s, a⟩ := f
  simp only at hacc hname
  subst hacc hname
  have h1 : included_extensions.contains (strLower (pySuffix "README")) = false := by
    decide
  have h2 : isSpecialName (strLower "README") = true := by decide
  constructor
  · simp [is_text_file, h1, h2]
  · intro bs tx
    simp [is_text_file, h1, h2]

/-- Witness for claim C5: a concrete accessible README, even with binary
content, is classified Text. -/
theorem claimC5_witness :
    is_text_file { name := "README", bytes := [0], text := "x", size := 1,
                   accessible := true } = true
    ∧ ∀ (bs : List Nat) (tx : String),
        is_text_file { name := "README", bytes := bs, text := tx, size := 1,
                       accessible := true } = true :=
  claimC5_readme
    { name := "README", bytes := [0], text := "x", size := 1,
      accessible := true } rfl rfl

/-- Claim C6: for a root that does not exist or is not accessible, the scan
returns an empty descriptor list, appends exactly one diagnostic string to
the statistics' errors, and (being a total function) does not raise. -/
theorem claimC6_invalid_root (rootPath : String) (r : Root) (st : ScanStats)
    (h : r = Root.missing ∨ r = Root.inaccessible) :
    (collect_files_with_info rootPath r st).2 = []
    ∧ (collect_files_with_info rootPath r st).1.errors.length
        = st.errors.length + 1 := by
  rcases h with h | h <;> subst h <;> simp [collect_files_with_info]

/-- Witness for claim C6: a concrete missing root yields no descriptors and
one recorded error. -/
theorem claimC6_witness :
    (collect_files_with_info "/nope" Root.missing initial_stats).2 = []
    ∧ (collect_files_with_info "/nope" Root.missing initial_stats).1.errors.length
        = initial_stats.errors.length + 1 :=
  claimC6_invalid_root "/nope" Root.missing initial_stats (Or.inl rfl)

theorem collect_stats (rootPath : String) (r : Root) (st : ScanStats) :
    (collect_files_with_info rootPath r st).1.total_files + st.skipped_files
      = st.total_files
          + (collect_files_with_info rootPath r st).1.skipped_files
          + (collect_files_with_info rootPath r st).2.length
    ∧ (collect_files_with_info rootPath r st).1.concatenated_files
        = st.concatenated_files := by
  cases r with
  | missing => simp [collect_files_with_info]
  | inaccessible => simp [collect_files_with_info]
  | ok t => exact scanTree_stats [] st t

/-- Claim C3: for every directory tree (and also for invalid roots), after a
run in which 100% of the descriptors returned by the scan are passed to the
concatenation and the run completes, the counters satisfy
totalFiles = concatenatedFiles + skippedFiles. -/
theorem claimC3_invariant (maxFS w : Nat) (ts rootPath : String) (r : Root) :
    (runScanThenConcat maxFS w ts rootPath r).2.total_files
      = (runScanThenConcat maxFS w ts rootPath r).2.concatenated_files
          + (runScanThenConcat maxFS w ts rootPath r).2.skipped_files := by
  have hc := collect_stats rootPath r initial_stats
  have hb := concatBatchesAux_stats maxFS
    (chunksSucc
      (batchSizeOf (collect_files_with_info rootPath r initial_stats).2.length w - 1)
      (collect_files_with_info rootPath r initial_stats).2)
    (collect_files_with_info rootPath r initial_stats).1
  rw [chunksSucc_flatten] at hb
  have hf := filter_not_length (sizeOk maxFS)
    (collect_files_with_info rootPath r initial_stats).2
  simp only [runScanThenConcat, concatenate_files_parallel]
  have h1 : initial_stats.total_files = 0 := rfl
  have h2 : initial_stats.skipped_files = 0 := rfl
  have h3 : initial_stats.concatenated_files = 0 := rfl
  omega

/-- Claim C4: no descriptor returned by a scan lies under any ancestor
directory whose basename is excluded (case-insensitively one of
excludedDirNames, or a dot-leading VCS hidden name); moreover an excluded
directory is pruned at traversal time: scanning past it leaves statistics and
output exactly as if the directory and its entire subtree were absent, so the
subtree is never visited. -/
theorem claimC4_pruning :
    (∀ (rootPath : String) (t : FSTree) (st : ScanStats) (fi : FileInfo),
        fi ∈ (collect_files_with_info rootPath (Root.ok t) st).2 →
        ∀ p ∈ fi.parts, should_exclude_directory_name p = false)
    ∧ (∀ (pre : List String) (name : String) (sub : FSTree) (rest : FSDirs)
          (st : ScanStats), should_exclude_directory_name name = true →
        scanDirs pre st (FSDirs.cons name sub rest) = scanDirs pre st rest) := by
  constructor
  · intro rootPath t st fi hfi p hp
    exact scanTree_parts [] st t (by simp) fi hfi p hp
  · intro pre name sub rest st h
    simp [scanDirs, h]

/-- Witness for claim C4: scanning past a concrete `.git` directory holding a
file leaves the scan of the remaining entries unchanged, and the descriptor
of a concrete one-file scan has no excluded ancestor. -/
theorem claimC4_witness :
    scanDirs [] initial_stats
        (FSDirs.cons ".git"
          (FSTree.node
            [ { name := "config", bytes := [99], text := "c", size := 1,
                accessible := true } ] FSDirs.nil)
          FSDirs.nil)
      = scanDirs [] initial_stats FSDirs.nil :=
  claimC4_pruning.2 [] ".git"
    (FSTree.node
      [ { name := "config", bytes := [99], text := "c", size := 1,
          accessible := true } ] FSDirs.nil)
    FSDirs.nil initial_stats (by decide)

/-- Claim C7: an oversized selected file is skipped without retrying (one
attempt, no content, no stats change), contributes no section keyed by its
relative path to the document, is counted in skippedFiles, and the run is not
aborted: the produced sections are exactly those of the within-limit files. -/
theorem claimC7_oversized (maxFS w : Nat) (st : ScanStats)
    (sel : List FileInfo) (fi : FileInfo)
    (hmem : fi ∈ sel) (hover : maxFS < fi.file.size)
    (hnd : (sel.map FileInfo.relative_path).Nodup) :
    read_file_chunk maxFS fi.file st = (none, st, 1)
    ∧ (∀ p ∈ concat_pairs maxFS w st sel, p.1 ≠ fi.relative_path)
    ∧ (concatBatchesAux maxFS st
        (chunksSucc (batchSizeOf sel.length w - 1) sel)).2.skipped_files
        = st.skipped_files + (sel.filter (fun x => !sizeOk maxFS x)).length
    ∧ (concat_pairs maxFS w st sel).Perm
        ((sel.filter (sizeOk maxFS)).map pairOf) := by
  refine ⟨?_, ?_, ?_, concat_pairs_perm maxFS w st sel⟩
  · simp [read_file_chunk, hover]
  · intro p hp hcontra
    have hmem2 := (concat_pairs_perm maxFS w st sel).mem_iff.mp hp
    rcases List.mem_map.mp hmem2 with ⟨fj, hfj, hpair⟩
    have hfj_sel : fj ∈ sel := List.mem_of_mem_filter hfj
    have hrel : fj.relative_path = fi.relative_path := by
      rw [← hcontra, ← hpair]
      rfl
    have heq : fj = fi := List.inj_on_of_nodup_map hnd hfj_sel hmem hrel
    have hok : sizeOk maxFS fj = true := List.of_mem_filter hfj
    rw [heq] at hok
    simp [sizeOk] at hok
    omega
  · have hb := concatBatchesAux_stats maxFS
      (chunksSucc (batchSizeOf sel.length w - 1) sel) st
    rw [chunksSucc_flatten] at hb
    exact hb.2.2

/-- Witness for claim C7: with limit 5, the 6-byte file is read as none in
one attempt with unchanged statistics. -/
theorem claimC7_witness :
    read_file_chunk 5 c7big.file initial_stats = (none, initial_stats, 1) :=
  (claimC7_oversized 5 2 initial_stats [c7big, c7small] c7big
    (by decide) (by decide) (by decide)).1

/-- Claim C8: concatenating the same selection with workerCount 1 and with
workerCount 8 (from any starting statistics) yields the same multiset of
(relativePath, section) pairs, hence the same set of per-file sections with
identical content per relative path; only their order may differ. -/
theorem claimC8_worker_independence (maxFS : Nat) (st1 st8 : ScanStats)
    (sel : List FileInfo) :
    (concat_pairs maxFS 1 st1 sel).Perm (concat_pairs maxFS 8 st8 sel)
    ∧ ((concat_pairs maxFS 1 st1 sel).map Prod.snd).Perm
        ((concat_pairs maxFS 8 st8 sel).map Prod.snd) := by
  have hp := (concat_pairs_perm maxFS 1 st1 sel).trans
    (concat_pairs_perm maxFS 8 st8 sel).symm
  exact ⟨hp, hp.map Prod.snd⟩

/-- Claim C9: the selection is split into contiguous batches of size
max(1, count / workerCount) (all batches full except possibly the last, which
is nonempty and no larger), the batches are processed in order, and the
document is the header followed by each batch's formatted sections
"\n### " ++ relativePath ++ " ###\n" ++ content ++ "\n\n" sorted by
relativePath within the batch only — piecewise-sorted, not globally. -/
theorem claimC9_batching (maxFS w : Nat) (ts rootDir : String)
    (st : ScanStats) (sel : List FileInfo) (hw : 0 < w) (hne : sel ≠ []) :
    (chunksSucc (batchSizeOf sel.length w - 1) sel).flatten = sel
    ∧ (∀ b ∈ (chunksSucc (batchSizeOf sel.length w - 1) sel).dropLast,
        b.length = batchSizeOf sel.length w)
    ∧ (∀ b ∈ chunksSucc (batchSizeOf sel.length w - 1) sel,
        b ≠ [] ∧ b.length ≤ batchSizeOf sel.length w)
    ∧ (concatenate_files_parallel maxFS w ts rootDir st sel).1
        = docHeader ts rootDir sel.length w
            ++ String.join
              ((chunksSucc (batchSizeOf sel.length w - 1) sel).map
                (fun b => String.join
                  ((List.insertionSort relLE
                      ((b.filter (sizeOk maxFS)).map pairOf)).map Prod.snd)))
    ∧ (∀ b ∈ chunksSucc (batchSizeOf sel.length w - 1) sel,
        List.Sorted relLE
          (List.insertionSort relLE ((b.filter (sizeOk maxFS)).map pairOf))) := by
  have hbs : batchSizeOf sel.length w - 1 + 1 = batchSizeOf sel.length w := by
    unfold batchSizeOf
    omega
  refine ⟨chunksSucc_flatten _ _, ?_, ?_, ?_, ?_⟩
  · intro b hb
    have h := chunksSucc_dropLast_aux (batchSizeOf sel.length w - 1)
      sel.length sel le_rfl b hb
    omega
  · intro b hb
    have h := chunksSucc_mem_aux (batchSizeOf sel.length w - 1)
      sel.length sel le_rfl b hb
    exact ⟨h.1, by omega⟩
  · simp only [concatenate_files_parallel]
    rw [concatBatchesAux_pairs, string_join_cons]
    congr 1
    rw [List.map_flatten, ← string_join_flatten, List.map_map, List.map_map]
    rfl
  · intro b hb
    exact List.sorted_insertionSort relLE _

/-- Witness for claim C9: at a concrete one-element selection with one worker
the batches flatten back to the selection. -/
theorem claimC9_witness :
    (chunksSucc (batchSizeOf ([c9fi] : List FileInfo).length 1 - 1)
      [c9fi]).flatten = [c9fi] :=
  (claimC9_batching 10 1 "T" "/r" initial_stats [c9fi]
    (by decide) (by decide)).1

/-- Claim C10: an accessible, non-hidden file whose extension is not
whitelisted and whose name is not special, whose first 1024 bytes contain no
null byte but whose decoded probe strips to the empty string, is classified
non-text, and the scan step counts it in both binaryFiles and skippedFiles
(besides totalFiles) and emits no descriptor. -/
theorem claimC10_empty_decode (pre : List String) (st : ScanStats) (f : FSFile)
    (hacc : f.accessible = true)
    (hhid : is_hidden f.name = false)
    (hext : included_extensions.contains (strLower (pySuffix f.name)) = false)
    (hsp : isSpecialName (strLower f.name) = false)
    (hnull : (f.bytes.take 1024).contains 0 = false)
    (hws : strTrim (strTake f.text 1024) = "") :
    is_text_file f = false
    ∧ scanFile pre st f
        = ({ st with total_files := st.total_files + 1,
                     binary_files := st.binary_files + 1,
                     skipped_files := st.skipped_files + 1 }, none) := by
  have hext2 : strLower (pySuffix f.name) ∉ included_extensions := by
    simpa using hext
  have htext : is_text_file f = false := by
    simp [is_text_file, check_file_content, hext2, hsp, hnull, hacc, hws]
  refine ⟨htext, ?_⟩
  simp [scanFile, hacc, hhid, htext]

/-- Witness for claim C10: a concrete whitespace-only file is rejected and
counted as binary and skipped. -/
theorem claimC10_witness :
    is_text_file { name := "data", bytes := [32], text := " ", size := 1,
                   accessible := true } = false
    ∧ scanFile [] initial_stats
        { name := "data", bytes := [32], text := " ", size := 1,
          accessible := true }
        = ({ initial_stats with
              total_files := initial_stats.total_files + 1,
              binary_files := initial_stats.binary_files + 1,
              skipped_files := initial_stats.skipped_files + 1 }, none) :=
  claimC10_empty_decode [] initial_stats
    { name := "data", bytes := [32], text := " ", size := 1,
      accessible := true }
    rfl (by decide) (by decide) (by decide) (by decide) (by decide)

end FileConcat
